import Mathlib

/-!
Shallow embedding of `mypy/plugins/functools.py` (the `functools.total_ordering`
plugin of the mypy static type checker) and proofs about it.

The embedding models:
  * the mypy type expressions the plugin inspects (`Ty`, a shallow rendering of
    `mypy.types`: `Instance`, `UnboundType`, `AnyType`, `CallableType`,
    `TypeAliasType`, everything else collapsed into `otherT`);
  * symbol-table nodes (`Node`: `FuncItem`, `Var`, anything else);
  * class descriptors (`ClassInfo`: a name-keyed member table) and the context
    handed to the plugin callback (`Ctx`: the python version from the options
    and the MRO of the decorated class, most-derived first, `object` last);
  * the three functions of the source file: `_analyze_class`,
    `_find_other_type` and `functools_total_ordering_maker_callback`.

Side effects are made explicit: `ctx.api.fail` calls accumulate into a list of
diagnostic strings and `add_method_to_class` calls accumulate into a list of
`Insert` records, so the callback becomes a pure function
`Ctx → Bool → List String × List AddedMethod`.

Python-level primitives the source relies on are modelled directly:
  * `pyStrLt` is CPython's `str.__lt__` (code-point lexicographic);
  * `pyTupleLt` is CPython's tuple `<` (used for `python_version < (3,)`);
  * `pySplit` is `str.split(sep)` for a one-character separator;
  * dictionaries are insertion-ordered association lists, `max(d, key=f)`
    iterates the keys in insertion order keeping the first maximal element.
-/

/-- Parameter kinds of `mypy.nodes`: `ARG_POS`, `ARG_OPT`, `ARG_STAR`,
`ARG_NAMED`, `ARG_STAR2`, `ARG_NAMED_OPT`. -/
inductive ArgKind where
  | pos
  | opt
  | star
  | named
  | star2
  | namedOpt
deriving DecidableEq

/-- The provenance tags of `mypy.types.TypeOfAny` that matter here (the plugin
only ever constructs `implementation_artifact`; the others stand in for any
other provenance an input `AnyType` may carry). -/
inductive TypeOfAny where
  | unannotated
  | explicitAny
  | from_error
  | special_form
  | implementation_artifact
deriving DecidableEq

/-- Shallow model of `mypy.types.Type`.  `instanceT` is `Instance` identified
by the fullname of its `TypeInfo` (nominal identity, which is what
`Instance.__eq__` compares); `unboundT` is `UnboundType` with its dotted name;
`anyT` is `AnyType`; `callableT` is `CallableType` keeping the three fields the
plugin reads (`arg_kinds`, `arg_types`, `ret_type`); `aliasT` is
`TypeAliasType` (unfolded by `get_proper_type`); `otherT` covers every other
type expression, which the plugin never takes apart. -/
inductive Ty where
  | instanceT (fullname : String)
  | unboundT (name : String)
  | anyT (src : TypeOfAny)
  | callableT (arg_kinds : List ArgKind) (arg_types : List Ty) (ret_type : Ty)
  | aliasT (target : Ty)
  | otherT (tag : String)

/-- `mypy.types.get_proper_type`: unfold type aliases; every other
constructor of `Ty` models a `ProperType` and is returned unchanged. -/
def get_proper_type : Ty → Ty
  | .aliasT target => get_proper_type target
  | t => t

/-- `ctx.api.named_type('__builtins__.bool')`: the canonical boolean
`Instance`. -/
def boolNamedType : Ty := .instanceT "builtins.bool"

/-- Model of the test `t == ctx.api.named_type('__builtins__.bool')`.
`mypy.types.Instance.__eq__` requires the other side to be an `Instance` of
the same `TypeInfo`, so the test holds exactly for the boolean `Instance`
itself and for no other type expression. -/
def isBoolNamedType : Ty → Bool
  | .instanceT fullname => fullname == "builtins.bool"
  | _ => false

/-- A symbol-table node (`SymbolTableNode.node`): a function-like definition
(`FuncItem`, carrying `is_static` and its optional type), a variable
(`Var`, carrying `is_staticmethod` and its optional type), or anything else
(including a missing node), which the plugin treats as unanalyzable. -/
inductive Node where
  | funcItem (is_static : Bool) (type : Option Ty)
  | varNode (is_staticmethod : Bool) (type : Option Ty)
  | otherNode
deriving Inhabited

/-- A class descriptor: its symbol table `names`, an insertion-ordered
association list from member name to node (unique keys per class). -/
structure ClassInfo where
  names : List (String × Node)

/-- The plugin context: `ctx.api.options.python_version` and
`ctx.cls.info.mro` (the class itself first, `builtins.object` last). -/
structure Ctx where
  pythonVersion : List Nat
  mro : List ClassInfo

/-- `_MethodInfo = NamedTuple('_MethodInfo', [('is_static', bool), ('type', CallableType)])`,
with the `CallableType` flattened into the three fields the plugin reads. -/
structure _MethodInfo where
  is_static : Bool
  arg_kinds : List ArgKind
  arg_types : List Ty
  ret_type : Ty

/-- The comparison-method dictionary `Dict[str, Optional[_MethodInfo]]`,
as an insertion-ordered association list. -/
abbrev CmpMap := List (String × Option _MethodInfo)

/-- `_ORDERING_METHODS`.  The source stores a `set`; its iteration order is
unspecified, and no result below depends on the order chosen here, because
each of the four names is processed independently by the loops that iterate
it. -/
def ORDERING_METHODS : List String := ["__lt__", "__le__", "__gt__", "__ge__"]

/-- Classify one symbol-table node the way the body of `_analyze_class`
does: a `FuncItem` whose declared type is literally a `CallableType` is
analyzable, a `Var` whose type is a `CallableType` after `get_proper_type`
is analyzable, and everything else yields `None` (unanalyzable). -/
def analyzeNode : Node → Option _MethodInfo
  | .funcItem is_static type =>
    match type with
    | some (.callableT ks ts r) => some ⟨is_static, ks, ts, r⟩
    | _ => none
  | .varNode is_staticmethod type =>
    match type.map get_proper_type with
    | some (.callableT ks ts r) => some ⟨is_staticmethod, ks, ts, r⟩
    | _ => none
  | .otherNode => none

/-- One name of the inner loop of `_analyze_class`:
`if name in cls.names and name not in comparison_methods:` record the
classification of `cls.names[name].node` (dictionary insertion appends a
fresh key at the end). -/
def scanName (cls : ClassInfo) (acc : CmpMap) (name : String) : CmpMap :=
  match cls.names.lookup name with
  | some node => if (acc.lookup name).isSome then acc else acc ++ [(name, analyzeNode node)]
  | none => acc

/-- The body of the outer loop of `_analyze_class`: scan one ancestor for
all four ordering-method names. -/
def scanClass (acc : CmpMap) (cls : ClassInfo) : CmpMap :=
  ORDERING_METHODS.foldl (scanName cls) acc

/-- `_analyze_class`: traverse `ctx.cls.info.mro[:-1]` (`object` skipped)
and collect the ordering methods found, closest ancestor first. -/
def _analyze_class (ctx : Ctx) : CmpMap :=
  ctx.mro.dropLast.foldl scanClass []

/-- Specification-level view of the chain scan (the refinement target for the
shadowing invariant): the node for `name` found in the closest class of the
chain that declares it, `none` when no class in the chain declares it. -/
def closestDeclaration (chain : List ClassInfo) (name : String) : Option Node :=
  chain.findSome? (fun cls => cls.names.lookup name)

/-- CPython `str.__lt__`: lexicographic comparison of code points. -/
def pyCharsLt : List Char → List Char → Bool
  | _, [] => false
  | [], _ :: _ => true
  | c :: cs, d :: ds =>
    if c.toNat < d.toNat then true
    else if d.toNat < c.toNat then false
    else pyCharsLt cs ds

/-- CPython `str.__lt__` on `String`. -/
def pyStrLt (a b : String) : Bool := pyCharsLt a.data b.data

/-- CPython `<` on the pairs `(comparison_methods[k] is None, k)` used as sort
keys: tuple comparison, with `False < True` on booleans and `pyStrLt` on
strings. -/
def pyKeyLt (a b : Bool × String) : Bool :=
  (!a.1 && b.1) || (a.1 == b.1 && pyStrLt a.2 b.2)

/-- The sort key `lambda k: (comparison_methods[k] is None, k)`. -/
def entryKey (m : CmpMap) (k : String) : Bool × String :=
  ((m.lookup k).getD none |>.isNone, k)

/-- CPython `max(..., key=f)` over a nonempty sequence: scan left to right,
replacing the current best exactly when the new key is strictly greater. -/
def maxKeyAux (f : String → Bool × String) (best : String) : List String → String
  | [] => best
  | k :: ks => maxKeyAux f (if pyKeyLt (f best) (f k) then k else best) ks

/-- `max(comparison_methods, key=lambda k: (comparison_methods[k] is None, k))`:
iterate the dictionary keys in insertion order. -/
def selectRoot (m : CmpMap) : Option String :=
  match m with
  | [] => none
  | (k0, _) :: rest => some (maxKeyAux (entryKey m) k0 (rest.map (·.1)))

/-- The loop of `_find_other_type`, with `cur_pos_arg` made an explicit
argument; returns the `other_arg` found by `break`, or `none` when the
loop runs out. -/
def findOtherLoop (first_arg_pos : Nat) : Nat → List (ArgKind × Ty) → Option Ty
  | _, [] => none
  | cur_pos_arg, (arg_kind, arg_type) :: rest =>
    if arg_kind = .pos ∨ arg_kind = .opt then
      if cur_pos_arg = first_arg_pos then some arg_type
      else findOtherLoop first_arg_pos (cur_pos_arg + 1) rest
    else if arg_kind ≠ .star2 then some arg_type
    else findOtherLoop first_arg_pos cur_pos_arg rest

/-- `_find_other_type`: find the type of the `other` argument in a
comparison method. -/
def _find_other_type (method : _MethodInfo) : Ty :=
  let first_arg_pos := if method.is_static then 0 else 1
  match findOtherLoop first_arg_pos 0 (method.arg_kinds.zip method.arg_types) with
  | some other_arg => other_arg
  | none => .anyT .implementation_artifact

/-- CPython `str.split(sep)` with a one-character separator, on code-point
lists: split at every occurrence of the separator (adjacent separators give
empty pieces, so the result is always nonempty). -/
def pySplit (sep : Char) : List Char → List (List Char)
  | [] => [[]]
  | c :: cs =>
    let rest := pySplit sep cs
    if c = sep then [] :: rest
    else match rest with
      | [] => [[c]]
      | piece :: pieces => (c :: piece) :: pieces

/-- `proper_ret_type.name.split('.')[-1] == 'bool'`: the last dotted-path
component of an `UnboundType` name is `bool`. -/
def lastComponentIsBool (name : String) : Bool :=
  (pySplit '.' name.data).getLastD [] == "bool".data

/-- The return-type computation inlined in
`functools_total_ordering_maker_callback`: start from the boolean type, and
fall back to `AnyType(TypeOfAny.implementation_artifact)` unless the root's
declared return type equals the boolean `Instance` or is an `UnboundType`
whose simple name is `bool`. -/
def resolveRetType (root_method : _MethodInfo) : Ty :=
  if isBoolNamedType root_method.ret_type then boolNamedType
  else
    match get_proper_type root_method.ret_type with
    | .unboundT name =>
      if lastComponentIsBool name then boolNamedType
      else .anyT .implementation_artifact
    | _ => .anyT .implementation_artifact

/-- One `add_method_to_class(ctx.api, ctx.cls, additional_op, args, ret_type)`
call, recorded as data: the method name, the single
`Argument(Var('other', other_type), other_type, None, ARG_POS)`, and the
return type. -/
structure AddedMethod where
  methodName : String
  argName : String
  argType : Ty
  argKind : ArgKind
  retType : Ty

/-- Python truthiness of `comparison_methods.get(additional_op)`: true
exactly when the key is absent or maps to `None` (a `_MethodInfo` named
tuple is always truthy). -/
def entryIsMissingOrNone (m : CmpMap) (k : String) : Bool :=
  match m.lookup k with
  | some (some _) => false
  | _ => true

/-- CPython tuple `<` on integer tuples, used for
`ctx.api.options.python_version < (3,)`. -/
def pyTupleLt : List Nat → List Nat → Bool
  | _, [] => false
  | [], _ :: _ => true
  | a :: as, b :: bs =>
    if a < b then true
    else if b < a then false
    else pyTupleLt as bs

/-- `functools_total_ordering_maker_callback`: the whole plugin callback as a
pure function.  The returned pair collects, in order, the `ctx.api.fail`
messages and the `add_method_to_class` calls the run performs.  The
`auto_attribs_default` parameter is part of the source signature (with
default `False`). -/
def functools_total_ordering_maker_callback (ctx : Ctx)
    (auto_attribs_default : Bool := false) : List String × List AddedMethod :=
  if pyTupleLt ctx.pythonVersion [3] then
    (["\"functools.total_ordering\" is not supported in Python 2"], [])
  else
    let comparison_methods := _analyze_class ctx
    match selectRoot comparison_methods with
    | none =>
      (["No ordering operation defined when using \"functools.total_ordering\": < > <= >="], [])
    | some root =>
      match (comparison_methods.lookup root).getD none with
      | none => ([], [])
      | some root_method =>
        let other_type := _find_other_type root_method
        let ret_type := resolveRetType root_method
        let inserts := ORDERING_METHODS.filterMap (fun additional_op =>
          if entryIsMissingOrNone comparison_methods additional_op then
            some ⟨additional_op, "other", other_type, .pos, ret_type⟩
          else none)
        ([], inserts)

/-- `ARG_POS` or `ARG_OPT`: the kinds counted by `cur_pos_arg` in
`_find_other_type`. -/
def isPositionalKind (k : ArgKind) : Bool := k == .pos || k == .opt

/-- The number of required/optional-positional parameters strictly before
position `i` of the parameter list. -/
def cntBefore (params : List (ArgKind × Ty)) (i : Nat) : Nat :=
  ((params.take i).filter (fun p => isPositionalKind p.1)).length

/-- Specification-level "hit" predicate for `_find_other_type`, with an
explicit starting value `c` of the positional counter: position `i` of the
parameter list yields the operand type when either it is a
required/optional-positional parameter and the number of such parameters
before it (plus `c`) equals the expected position, or it is of any other kind
than variadic-keyword. -/
def hitFrom (expected c : Nat) (params : List (ArgKind × Ty)) (i : Nat) : Bool :=
  match params[i]? with
  | none => false
  | some (k, _) =>
    (isPositionalKind k && (c + cntBefore params i == expected))
    || (!isPositionalKind k && k != ArgKind.star2)

/-- `hitFrom` with the counter starting at `0`, as in `_find_other_type`. -/
def hitAt (expected : Nat) (params : List (ArgKind × Ty)) (i : Nat) : Bool :=
  hitFrom expected 0 params i

/-- The fixed preference rank of the four ordering-method names
(`__lt__` most preferred). -/
def prefRank (k : String) : Nat :=
  if k = "__lt__" then 0
  else if k = "__le__" then 1
  else if k = "__gt__" then 2
  else if k = "__ge__" then 3
  else 4

/-- Store a member in a class symbol table (`info.names[name] = ...`,
the effect of the external `add_method_to_class` collaborator on the
decorated class). -/
def setMember (cls : ClassInfo) (name : String) (n : Node) : ClassInfo :=
  ⟨cls.names.filter (fun p => p.1 != name) ++ [(name, n)]⟩

/-- The node `add_method_to_class` stores for one synthesized method: a
`FuncDef` (non-static) whose type is a `CallableType` taking the implicit
receiver (of the class's own instance type `selfType`) followed by the
recorded `other` argument. -/
def addedNode (selfType : Ty) (a : AddedMethod) : Node :=
  .funcItem false (some (.callableT [.pos, a.argKind] [selfType, a.argType] a.retType))

/-- Apply the recorded `add_method_to_class` calls of a run to the decorated
class (the head of the MRO), yielding the context a later run would see. -/
def applyAdded (ctx : Ctx) (added : List AddedMethod) (selfType : Ty) : Ctx :=
  match ctx.mro with
  | [] => ctx
  | cls :: rest =>
    ⟨ctx.pythonVersion,
      added.foldl (fun c a => setMember c a.methodName (addedNode selfType a)) cls :: rest⟩

/-! ### Association-list lookup lemmas -/

theorem lookup_cons {α : Type} (k' : String) (v : α) (l : List (String × α)) (k : String) :
    ((k', v) :: l).lookup k = if k' = k then some v else l.lookup k := by
  by_cases h : k' = k
  · simp [List.lookup, h]
  · have hne : (k == k') = false := beq_eq_false_iff_ne.mpr fun hh => h hh.symm
    simp [List.lookup, hne, h]

theorem lookup_append {α : Type} (l₁ l₂ : List (String × α)) (k : String) :
    (l₁ ++ l₂).lookup k = ((l₁.lookup k).or (l₂.lookup k)) := by
  induction l₁ with
  | nil => simp [List.lookup]
  | cons p l₁ ih =>
    rcases p with ⟨k', v⟩
    by_cases h : k' = k <;> simp [lookup_cons, h, ih]

theorem lookup_isSome_iff_mem {α : Type} (l : List (String × α)) (k : String) :
    (l.lookup k).isSome = true ↔ k ∈ l.map Prod.fst := by
  induction l with
  | nil => simp [List.lookup]
  | cons p l ih =>
    rcases p with ⟨k', v⟩
    rw [lookup_cons]
    by_cases h : k' = k
    · simp [h]
    · rw [if_neg h]
      simp only [List.map_cons, List.mem_cons]
      rw [ih]
      constructor
      · exact Or.inr
      · rintro (h1 | hm)
        · exact absurd h1.symm h
        · exact hm

theorem lookup_eq_none_iff_not_mem {α : Type} (l : List (String × α)) (k : String) :
    l.lookup k = none ↔ k ∉ l.map Prod.fst := by
  rw [← lookup_isSome_iff_mem]
  cases l.lookup k <;> simp

theorem mem_of_lookup_eq_some {α : Type} {l : List (String × α)} {k : String} {v : α}
    (h : l.lookup k = some v) : (k, v) ∈ l := by
  induction l with
  | nil => simp [List.lookup] at h
  | cons p l ih =>
    rcases p with ⟨k', v'⟩
    by_cases hk : k' = k
    · subst hk
      rw [lookup_cons] at h
      simp at h
      simp [h]
    · rw [lookup_cons, if_neg hk] at h
      exact List.mem_cons_of_mem _ (ih h)

/-! ### Facts about the modelled Python primitives -/

theorem pyCharsLt_irrefl (a : List Char) : pyCharsLt a a = false := by
  induction a with
  | nil => rfl
  | cons c cs ih => simp [pyCharsLt, ih]

theorem pyCharsLt_trans {a b c : List Char} (h₁ : pyCharsLt a b = true)
    (h₂ : pyCharsLt b c = true) : pyCharsLt a c = true := by
  induction a generalizing b c with
  | nil =>
    cases c with
    | nil => cases b <;> simp [pyCharsLt] at h₁ h₂
    | cons d ds => rfl
  | cons x xs ih =>
    cases b with
    | nil => simp [pyCharsLt] at h₁
    | cons y ys =>
      cases c with
      | nil => simp [pyCharsLt] at h₂
      | cons z zs =>
        simp only [pyCharsLt] at h₁ h₂ ⊢
        by_cases hxy : x.toNat < y.toNat
        · by_cases hyz : y.toNat < z.toNat
          · simp [Nat.lt_trans hxy hyz]
          · by_cases hzy : z.toNat < y.toNat
            · simp [hyz, hzy] at h₂
            · simp [show x.toNat < z.toNat by omega]
        · by_cases hyx : y.toNat < x.toNat
          · simp [hxy, hyx] at h₁
          · simp [hxy, hyx] at h₁
            by_cases hyz : y.toNat < z.toNat
            · simp [show x.toNat < z.toNat by omega]
            · by_cases hzy : z.toNat < y.toNat
              · simp [hyz, hzy] at h₂
              · simp [hyz, hzy] at h₂
                have hg1 : ¬ x.toNat < z.toNat := by omega
                have hg2 : ¬ z.toNat < x.toNat := by omega
                simp [hg1, hg2]
                exact ih h₁ h₂

theorem pyCharsLt_antisymm : ∀ {a b : List Char},
    pyCharsLt a b = false → pyCharsLt b a = false → a = b := by
  intro a
  induction a with
  | nil =>
    intro b h₁ _
    cases b with
    | nil => rfl
    | cons d ds => simp [pyCharsLt] at h₁
  | cons x xs ih =>
    intro b h₁ h₂
    cases b with
    | nil => simp [pyCharsLt] at h₂
    | cons y ys =>
      simp only [pyCharsLt] at h₁ h₂
      by_cases hxy : x.toNat < y.toNat
      · simp [hxy] at h₁
      · by_cases hyx : y.toNat < x.toNat
        · simp [hyx] at h₂
        · simp [hxy, hyx] at h₁ h₂
          have hchar : x = y := Char.eq_of_val_eq (UInt32.ext (by
            simp only [Char.toNat] at hxy hyx
            omega))
          rw [hchar, ih h₁ h₂]

theorem pyStrLt_antisymm {a b : String} (h₁ : pyStrLt a b = false)
    (h₂ : pyStrLt b a = false) : a = b := by
  cases a with
  | mk da =>
    cases b with
    | mk db =>
      have : da = db := pyCharsLt_antisymm h₁ h₂
      rw [this]

theorem pyKeyLt_irrefl (a : Bool × String) : pyKeyLt a a = false := by
  rcases a with ⟨b, s⟩
  cases b <;> simp [pyKeyLt, pyStrLt, pyCharsLt_irrefl]

theorem pyKeyLt_trans {a b c : Bool × String} (h₁ : pyKeyLt a b = true)
    (h₂ : pyKeyLt b c = true) : pyKeyLt a c = true := by
  rcases a with ⟨a1, a2⟩
  rcases b with ⟨b1, b2⟩
  rcases c with ⟨c1, c2⟩
  cases a1 <;> cases b1 <;> cases c1 <;>
      simp [pyKeyLt, pyStrLt] at h₁ h₂ ⊢ <;>
    exact pyCharsLt_trans h₁ h₂

theorem pyKeyLt_antisymm {a b : Bool × String} (h₁ : pyKeyLt a b = false)
    (h₂ : pyKeyLt b a = false) : a = b := by
  rcases a with ⟨a1, a2⟩
  rcases b with ⟨b1, b2⟩
  cases a1 <;> cases b1 <;> simp [pyKeyLt, pyStrLt] at h₁ h₂ ⊢ <;>
    exact pyStrLt_antisymm h₁ h₂

/-! ### The `max(..., key=...)` computation -/

theorem maxKeyAux_mem (f : String → Bool × String) (b : String) (ks : List String) :
    maxKeyAux f b ks ∈ b :: ks := by
  induction ks generalizing b with
  | nil => simp [maxKeyAux]
  | cons k ks ih =>
    simp only [maxKeyAux]
    have hm := ih (if pyKeyLt (f b) (f k) then k else b)
    rw [List.mem_cons] at hm
    rcases hm with h | h
    · rw [h]
      split <;> simp
    · simp [h]

theorem maxKeyAux_not_lt (f : String → Bool × String) (b : String) (ks : List String) :
    ∀ k ∈ b :: ks, pyKeyLt (f (maxKeyAux f b ks)) (f k) = false := by
  induction ks generalizing b with
  | nil =>
    intro k hk
    simp at hk
    subst hk
    simp [maxKeyAux, pyKeyLt_irrefl]
  | cons k0 ks ih =>
    intro k hk
    simp only [maxKeyAux]
    rw [List.mem_cons, List.mem_cons] at hk
    by_cases hlt : pyKeyLt (f b) (f k0) = true
    · rw [if_pos hlt]
      rcases hk with hk | hk | hk
      · subst hk
        have hk0 := ih k0 k0 (List.mem_cons_self _ _)
        cases hres : pyKeyLt (f (maxKeyAux f k0 ks)) (f k) with
        | false => rfl
        | true => exact absurd (pyKeyLt_trans hres hlt) (by simp [hk0])
      · rw [hk]
        exact ih k0 k0 (List.mem_cons_self _ _)
      · exact ih k0 k (List.mem_cons_of_mem _ hk)
    · rw [if_neg hlt]
      have hltf : pyKeyLt (f b) (f k0) = false := by
        cases hv : pyKeyLt (f b) (f k0)
        · rfl
        · exact absurd hv hlt
      rcases hk with hk | hk | hk
      · rw [hk]
        exact ih b b (List.mem_cons_self _ _)
      · subst hk
        have hrb := ih b b (List.mem_cons_self _ _)
        cases hres : pyKeyLt (f (maxKeyAux f b ks)) (f k) with
        | false => rfl
        | true =>
          cases hbr : pyKeyLt (f b) (f (maxKeyAux f b ks)) with
          | true => exact absurd (pyKeyLt_trans hbr hres) (by simp [hltf])
          | false =>
            have : f (maxKeyAux f b ks) = f b := by
              rw [pyKeyLt_antisymm hrb hbr]
            rw [this] at hres
            exact absurd hres (by simp [hltf])
      · exact ih b k (List.mem_cons_of_mem _ hk)

theorem selectRoot_mem {m : CmpMap} {r : String} (h : selectRoot m = some r) :
    r ∈ m.map Prod.fst := by
  cases m with
  | nil => simp [selectRoot] at h
  | cons p rest =>
    rcases p with ⟨k0, v0⟩
    simp only [selectRoot, Option.some_inj] at h
    subst h
    have := maxKeyAux_mem (entryKey ((k0, v0) :: rest)) k0 (rest.map (·.1))
    simpa using this

theorem selectRoot_not_lt {m : CmpMap} {r : String} (h : selectRoot m = some r) :
    ∀ k ∈ m.map Prod.fst, pyKeyLt (entryKey m r) (entryKey m k) = false := by
  cases m with
  | nil => simp [selectRoot] at h
  | cons p rest =>
    rcases p with ⟨k0, v0⟩
    simp only [selectRoot, Option.some_inj] at h
    subst h
    intro k hk
    have := maxKeyAux_not_lt (entryKey ((k0, v0) :: rest)) k0 (rest.map (·.1)) k
      (by simpa using hk)
    exact this

/-! ### The chain scan: lookup characterization and key invariants -/

theorem scanName_lookup_ne (cls : ClassInfo) (acc : CmpMap) (n k : String) (h : k ≠ n) :
    (scanName cls acc n).lookup k = acc.lookup k := by
  cases h' : cls.names.lookup n with
  | none => simp [scanName, h']
  | some node =>
    by_cases hs : (acc.lookup n).isSome = true
    · simp [scanName, h', hs]
    · have hsing : (([(n, analyzeNode node)] : CmpMap).lookup k) = none := by
        rw [lookup_cons, if_neg (fun hh => h hh.symm)]
        rfl
      simp [scanName, h', hs, lookup_append, hsing]

theorem scanName_lookup_self (cls : ClassInfo) (acc : CmpMap) (n : String) :
    (scanName cls acc n).lookup n =
      ((acc.lookup n).or ((cls.names.lookup n).map analyzeNode)) := by
  cases h' : cls.names.lookup n with
  | none => cases h2 : acc.lookup n <;> simp [scanName, h', h2]
  | some node =>
    by_cases hs : (acc.lookup n).isSome = true
    · rcases Option.isSome_iff_exists.mp hs with ⟨v, hv⟩
      simp [scanName, h', hs, hv]
    · have h2 : acc.lookup n = none := by
        cases h3 : acc.lookup n
        · rfl
        · rw [h3] at hs
          simp at hs
      have hsing : (([(n, analyzeNode node)] : CmpMap).lookup n) = some (analyzeNode node) := by
        rw [lookup_cons, if_pos rfl]
      simp [scanName, h', hs, h2, lookup_append, hsing]

theorem scanNames_lookup_not_mem (cls : ClassInfo) (ns : List String) :
    ∀ (acc : CmpMap) (name : String), name ∉ ns →
      (ns.foldl (scanName cls) acc).lookup name = acc.lookup name := by
  induction ns with
  | nil => intro acc name _; rfl
  | cons n ns ih =>
    intro acc name h
    have h1 : name ≠ n := fun hh => h (by simp [hh])
    have h2 : name ∉ ns := fun hh => h (by simp [hh])
    simp only [List.foldl_cons]
    rw [ih _ name h2, scanName_lookup_ne _ _ _ _ h1]

theorem scanNames_lookup_mem (cls : ClassInfo) (ns : List String) :
    ∀ (acc : CmpMap) (name : String), name ∈ ns → ns.Nodup →
      (ns.foldl (scanName cls) acc).lookup name =
        ((acc.lookup name).or ((cls.names.lookup name).map analyzeNode)) := by
  induction ns with
  | nil => intro acc name h _; simp at h
  | cons n ns ih =>
    intro acc name hmem hnd
    simp only [List.foldl_cons]
    rcases List.mem_cons.mp hmem with h | h
    · have hnotin : name ∉ ns := by
        rw [h]
        exact (List.nodup_cons.mp hnd).1
      rw [scanNames_lookup_not_mem cls ns _ name hnotin, h, scanName_lookup_self]
    · by_cases hne : name = n
      · rw [hne] at h
        exact absurd h (List.nodup_cons.mp hnd).1
      · rw [ih _ name h (List.nodup_cons.mp hnd).2, scanName_lookup_ne _ _ _ _ hne]

theorem foldl_scanClass_lookup (chain : List ClassInfo) :
    ∀ (acc : CmpMap) (name : String), name ∈ ORDERING_METHODS →
      (chain.foldl scanClass acc).lookup name =
        ((acc.lookup name).or ((closestDeclaration chain name).map analyzeNode)) := by
  induction chain with
  | nil =>
    intro acc name _
    cases h : acc.lookup name <;> simp [closestDeclaration, h]
  | cons c chain ih =>
    intro acc name hmem
    simp only [List.foldl_cons]
    rw [ih _ name hmem]
    rw [show scanClass acc c = ORDERING_METHODS.foldl (scanName c) acc from rfl]
    rw [scanNames_lookup_mem c ORDERING_METHODS acc name hmem (by decide)]
    rw [Option.or_assoc]
    congr 1
    cases h : c.names.lookup name with
    | none => simp [closestDeclaration, List.findSome?_cons, h]
    | some node => simp [closestDeclaration, List.findSome?_cons, h]

theorem foldl_scanClass_lookup_not_mem (chain : List ClassInfo) :
    ∀ (acc : CmpMap) (name : String), name ∉ ORDERING_METHODS →
      (chain.foldl scanClass acc).lookup name = acc.lookup name := by
  induction chain with
  | nil => intro acc name _; rfl
  | cons c chain ih =>
    intro acc name h
    simp only [List.foldl_cons]
    rw [ih _ name h]
    exact scanNames_lookup_not_mem c ORDERING_METHODS acc name h

theorem _analyze_class_lookup (ctx : Ctx) (name : String) (h : name ∈ ORDERING_METHODS) :
    (_analyze_class ctx).lookup name =
      (closestDeclaration ctx.mro.dropLast name).map analyzeNode := by
  unfold _analyze_class
  rw [foldl_scanClass_lookup _ [] name h]
  rfl

theorem _analyze_class_lookup_not_mem (ctx : Ctx) (name : String)
    (h : name ∉ ORDERING_METHODS) : (_analyze_class ctx).lookup name = none := by
  unfold _analyze_class
  rw [foldl_scanClass_lookup_not_mem _ [] name h]
  rfl

theorem scanName_keys (cls : ClassInfo) (acc : CmpMap) (n : String) :
    (scanName cls acc n).map Prod.fst = acc.map Prod.fst ∨
      ((scanName cls acc n).map Prod.fst = acc.map Prod.fst ++ [n] ∧
        n ∉ acc.map Prod.fst) := by
  cases h' : cls.names.lookup n with
  | none => left; simp [scanName, h']
  | some node =>
    by_cases hs : (acc.lookup n).isSome = true
    · left; simp [scanName, h', hs]
    · right
      have h2 : acc.lookup n = none := by
        cases h3 : acc.lookup n
        · rfl
        · rw [h3] at hs; simp at hs
      refine ⟨by simp [scanName, h', hs], ?_⟩
      exact (lookup_eq_none_iff_not_mem acc n).mp h2

theorem scanName_keys_nodup (cls : ClassInfo) (acc : CmpMap) (n : String)
    (h : (acc.map Prod.fst).Nodup) : ((scanName cls acc n).map Prod.fst).Nodup := by
  rcases scanName_keys cls acc n with heq | ⟨heq, hnin⟩
  · rw [heq]; exact h
  · rw [heq]
    rw [List.nodup_append]
    refine ⟨h, by simp, ?_⟩
    intro a ha
    simp only [List.mem_singleton]
    intro hc
    rw [hc] at ha
    exact hnin ha

theorem scanName_keys_sub (cls : ClassInfo) (acc : CmpMap) (n : String) :
    ∀ k ∈ (scanName cls acc n).map Prod.fst, k ∈ acc.map Prod.fst ∨ k = n := by
  intro k hk
  rcases scanName_keys cls acc n with heq | ⟨heq, _⟩
  · rw [heq] at hk; exact Or.inl hk
  · rw [heq] at hk
    rcases List.mem_append.mp hk with h | h
    · exact Or.inl h
    · simp at h
      exact Or.inr h

theorem scanNames_keys_nodup (cls : ClassInfo) (ns : List String) :
    ∀ acc : CmpMap, (acc.map Prod.fst).Nodup →
      ((ns.foldl (scanName cls) acc).map Prod.fst).Nodup := by
  induction ns with
  | nil => intro acc h; exact h
  | cons n ns ih =>
    intro acc h
    simp only [List.foldl_cons]
    exact ih _ (scanName_keys_nodup cls acc n h)

theorem scanNames_keys_sub (cls : ClassInfo) (ns : List String) :
    ∀ (acc : CmpMap) (k : String), k ∈ (ns.foldl (scanName cls) acc).map Prod.fst →
      k ∈ acc.map Prod.fst ∨ k ∈ ns := by
  induction ns with
  | nil => intro acc k h; exact Or.inl h
  | cons n ns ih =>
    intro acc k h
    simp only [List.foldl_cons] at h
    rcases ih _ k h with h1 | h1
    · rcases scanName_keys_sub cls acc n k h1 with h2 | h2
      · exact Or.inl h2
      · exact Or.inr (by simp [h2])
    · exact Or.inr (List.mem_cons_of_mem _ h1)

theorem foldl_scanClass_keys_nodup (chain : List ClassInfo) :
    ∀ acc : CmpMap, (acc.map Prod.fst).Nodup →
      ((chain.foldl scanClass acc).map Prod.fst).Nodup := by
  induction chain with
  | nil => intro acc h; exact h
  | cons c chain ih =>
    intro acc h
    simp only [List.foldl_cons]
    exact ih _ (scanNames_keys_nodup c ORDERING_METHODS acc h)

theorem foldl_scanClass_keys_sub (chain : List ClassInfo) :
    ∀ (acc : CmpMap) (k : String), k ∈ (chain.foldl scanClass acc).map Prod.fst →
      k ∈ acc.map Prod.fst ∨ k ∈ ORDERING_METHODS := by
  induction chain with
  | nil => intro acc k h; exact Or.inl h
  | cons c chain ih =>
    intro acc k h
    simp only [List.foldl_cons] at h
    rcases ih _ k h with h1 | h1
    · exact scanNames_keys_sub c ORDERING_METHODS acc k h1
    · exact Or.inr h1

theorem _analyze_class_keys_nodup (ctx : Ctx) :
    ((_analyze_class ctx).map Prod.fst).Nodup :=
  foldl_scanClass_keys_nodup ctx.mro.dropLast [] (by simp)

theorem _analyze_class_keys_sub (ctx : Ctx) :
    ∀ k ∈ (_analyze_class ctx).map Prod.fst, k ∈ ORDERING_METHODS := by
  intro k hk
  rcases foldl_scanClass_keys_sub ctx.mro.dropLast [] k hk with h | h
  · simp at h
  · exact h

/-! ### Characterizing the callback -/

theorem callback_gate_false (ctx : Ctx) (b : Bool)
    (h : pyTupleLt ctx.pythonVersion [3] = false) :
    functools_total_ordering_maker_callback ctx b =
      (match selectRoot (_analyze_class ctx) with
       | none =>
         (["No ordering operation defined when using \"functools.total_ordering\": < > <= >="], [])
       | some root =>
         match ((_analyze_class ctx).lookup root).getD none with
         | none => ([], [])
         | some root_method =>
           ([], ORDERING_METHODS.filterMap (fun additional_op =>
             if entryIsMissingOrNone (_analyze_class ctx) additional_op then
               some ⟨additional_op, "other", _find_other_type root_method, .pos,
                 resolveRetType root_method⟩
             else none))) := by
  unfold functools_total_ordering_maker_callback
  rw [h]
  simp only [Bool.false_eq_true, if_false]

theorem selectRoot_of_ne_nil {m : CmpMap} (h : m ≠ []) : ∃ r, selectRoot m = some r := by
  cases m with
  | nil => exact absurd rfl h
  | cons p rest =>
    rcases p with ⟨k0, v0⟩
    exact ⟨maxKeyAux (entryKey ((k0, v0) :: rest)) k0
      (rest.map (fun p : String × Option _MethodInfo => p.1)), rfl⟩

theorem run_noop_of_all_present (ctx : Ctx) (b : Bool)
    (hgate : pyTupleLt ctx.pythonVersion [3] = false)
    (hall : ∀ name ∈ ORDERING_METHODS, ((_analyze_class ctx).lookup name).isSome = true) :
    functools_total_ordering_maker_callback ctx b = ([], []) := by
  set m := _analyze_class ctx with hm
  have hlt : (m.lookup "__lt__").isSome = true := hall _ (by simp [ORDERING_METHODS])
  have hne : m ≠ [] := by
    intro hnil
    rw [hnil] at hlt
    simp [List.lookup] at hlt
  obtain ⟨r, hr⟩ := selectRoot_of_ne_nil hne
  rw [callback_gate_false ctx b hgate, ← hm]
  cases hrm : (m.lookup r).getD none with
  | none => simp [hr, hrm]
  | some rm =>
    have hcond : ∀ op ∈ ORDERING_METHODS, entryIsMissingOrNone m op = false := by
      intro op hop
      have hs := hall op hop
      rcases Option.isSome_iff_exists.mp hs with ⟨v, hv⟩
      cases v with
      | some mi => simp [entryIsMissingOrNone, hv]
      | none =>
        exfalso
        have hmemk : op ∈ m.map Prod.fst :=
          (lookup_isSome_iff_mem m op).mp (by rw [hv]; rfl)
        have hmax := selectRoot_not_lt hr op hmemk
        have h1 : entryKey m r = (false, r) := by simp [entryKey, hrm]
        have h2 : entryKey m op = (true, op) := by simp [entryKey, hv]
        rw [h1, h2] at hmax
        simp [pyKeyLt] at hmax
    have hnil : (ORDERING_METHODS.filterMap (fun additional_op =>
        if entryIsMissingOrNone m additional_op then
          some (⟨additional_op, "other", _find_other_type rm, .pos,
            resolveRetType rm⟩ : AddedMethod)
        else none)) = [] := by
      rw [List.filterMap_eq_nil_iff]
      intro op hop
      rw [hcond op hop]
      rfl
    simp only [hr, hrm, hnil]

theorem filterMap_mk_names (ns : List String) (p : String → Bool) (an : String)
    (T : Ty) (k : ArgKind) (R : Ty) :
    ((ns.filterMap (fun op =>
        if p op then some (⟨op, an, T, k, R⟩ : AddedMethod) else none)).map
      (fun a => a.methodName)) = ns.filter p := by
  induction ns with
  | nil => rfl
  | cons n ns ih =>
    by_cases h : p n <;> simp [List.filterMap_cons, List.filter_cons, h, ih]

theorem mem_filterMap_mk (ns : List String) (p : String → Bool) (an : String)
    (T : Ty) (k : ArgKind) (R : Ty) (a : AddedMethod)
    (h : a ∈ ns.filterMap (fun op =>
      if p op then some (⟨op, an, T, k, R⟩ : AddedMethod) else none)) :
    a.methodName ∈ ns ∧ p a.methodName = true ∧
      a = ⟨a.methodName, an, T, k, R⟩ := by
  rcases List.mem_filterMap.mp h with ⟨op, hop, hfa⟩
  by_cases hp : p op
  · rw [if_pos hp] at hfa
    have ha : a = ⟨op, an, T, k, R⟩ := by
      injection hfa with h'
      exact h'.symm
    subst ha
    exact ⟨hop, hp, rfl⟩
  · rw [if_neg hp] at hfa
    exact absurd hfa (by simp)

/-! ### The effect of `add_method_to_class` on a later run -/

theorem lookup_filter_ne {α : Type} (l : List (String × α)) (n k : String) (h : k ≠ n) :
    (l.filter (fun p => p.1 != n)).lookup k = l.lookup k := by
  induction l with
  | nil => rfl
  | cons p l ih =>
    rcases p with ⟨k', v⟩
    by_cases hk : k' = n
    · have hc : (k' != n) = false := by simp [hk]
      rw [List.filter_cons, hc]
      simp only [Bool.false_eq_true, if_false]
      rw [lookup_cons, if_neg (by rw [hk]; exact fun hh => h hh.symm)]
      exact ih
    · have hc : (k' != n) = true := by simp [hk]
      rw [List.filter_cons, hc]
      simp only [if_true]
      rw [lookup_cons, lookup_cons]
      by_cases hkk : k' = k <;> simp [hkk, ih]

theorem setMember_lookup_self (cls : ClassInfo) (n : String) (node : Node) :
    (setMember cls n node).names.lookup n = some node := by
  unfold setMember
  rw [lookup_append]
  have h1 : (cls.names.filter (fun p => p.1 != n)).lookup n = none := by
    rw [lookup_eq_none_iff_not_mem]
    intro hmem
    rcases List.mem_map.mp hmem with ⟨q, hq, hfst⟩
    have := List.of_mem_filter hq
    rw [hfst] at this
    simp at this
  rw [h1]
  have h2 : (([(n, node)] : List (String × Node)).lookup n) = some node := by
    rw [lookup_cons, if_pos rfl]
  rw [h2]
  rfl

theorem setMember_lookup_ne (cls : ClassInfo) (n : String) (node : Node) (k : String)
    (h : k ≠ n) : (setMember cls n node).names.lookup k = cls.names.lookup k := by
  unfold setMember
  rw [lookup_append, lookup_filter_ne _ _ _ h]
  have h2 : (([(n, node)] : List (String × Node)).lookup k) = none := by
    rw [lookup_cons, if_neg (fun hh => h hh.symm)]
    rfl
  rw [h2, Option.or_none]

theorem foldl_setMember_lookup_not_mem (selfType : Ty) (added : List AddedMethod) :
    ∀ (cls : ClassInfo) (name : String), name ∉ added.map (fun a => a.methodName) →
      ((added.foldl (fun c a => setMember c a.methodName (addedNode selfType a)) cls).names.lookup
        name) = cls.names.lookup name := by
  induction added with
  | nil => intro cls name _; rfl
  | cons a rest ih =>
    intro cls name h
    have h1 : name ≠ a.methodName := fun hh => h (by simp [hh])
    have h2 : name ∉ rest.map (fun a => a.methodName) := fun hh => h (by simp [hh])
    simp only [List.foldl_cons]
    rw [ih _ name h2, setMember_lookup_ne _ _ _ _ h1]

theorem foldl_setMember_lookup_mem (selfType : Ty) (added : List AddedMethod) :
    ∀ (cls : ClassInfo) (name : String), name ∈ added.map (fun a => a.methodName) →
      ∃ a : AddedMethod, a ∈ added ∧ a.methodName = name ∧
        ((added.foldl (fun c a => setMember c a.methodName (addedNode selfType a)) cls).names.lookup
          name) = some (addedNode selfType a) := by
  induction added with
  | nil => intro cls name h; simp at h
  | cons a rest ih =>
    intro cls name hmem
    simp only [List.foldl_cons]
    by_cases hmem' : name ∈ rest.map (fun a => a.methodName)
    · rcases ih _ name hmem' with ⟨a', ha', hn, hl⟩
      exact ⟨a', List.mem_cons_of_mem _ ha', hn, hl⟩
    · have hname : a.methodName = name := by
        simp only [List.map_cons, List.mem_cons] at hmem
        rcases hmem with h | h
        · exact h.symm
        · exact absurd h hmem'
      refine ⟨a, List.mem_cons_self _ _, hname, ?_⟩
      rw [foldl_setMember_lookup_not_mem selfType rest _ name hmem']
      rw [← hname]
      exact setMember_lookup_self cls a.methodName (addedNode selfType a)

/-! ### `_find_other_type` against its positional specification -/

theorem cntBefore_cons_succ (k : ArgKind) (t : Ty) (rest : List (ArgKind × Ty)) (i : Nat) :
    cntBefore ((k, t) :: rest) (i + 1) =
      (if isPositionalKind k then 1 else 0) + cntBefore rest i := by
  simp only [cntBefore, List.take_succ_cons, List.filter_cons]
  by_cases hk : isPositionalKind k <;> simp [hk, Nat.add_comm]

theorem hitFrom_zero (expected c : Nat) (k : ArgKind) (t : Ty)
    (rest : List (ArgKind × Ty)) :
    hitFrom expected c ((k, t) :: rest) 0 =
      ((isPositionalKind k && (c == expected)) ||
        (!isPositionalKind k && k != ArgKind.star2)) := by
  simp [hitFrom, cntBefore]

theorem hitFrom_succ (expected c : Nat) (k : ArgKind) (t : Ty)
    (rest : List (ArgKind × Ty)) (i : Nat) :
    hitFrom expected c ((k, t) :: rest) (i + 1) =
      hitFrom expected (c + if isPositionalKind k then 1 else 0) rest i := by
  unfold hitFrom
  rw [List.getElem?_cons_succ]
  cases h : rest[i]? with
  | none => rfl
  | some p =>
    rcases p with ⟨k', t'⟩
    simp only [cntBefore_cons_succ]
    have harith : c + ((if isPositionalKind k then 1 else 0) + cntBefore rest i) =
        (c + if isPositionalKind k then 1 else 0) + cntBefore rest i := by omega
    rw [harith]

theorem findOtherLoop_spec (expected : Nat) (params : List (ArgKind × Ty)) :
    ∀ c : Nat,
      (∀ t, findOtherLoop expected c params = some t →
        ∃ j k', params[j]? = some (k', t) ∧ hitFrom expected c params j = true ∧
          ∀ i, i < j → hitFrom expected c params i = false) ∧
      (findOtherLoop expected c params = none →
        ∀ i, hitFrom expected c params i = false) := by
  induction params with
  | nil =>
    intro c
    constructor
    · intro t ht
      simp [findOtherLoop] at ht
    · intro _ i
      simp [hitFrom]
  | cons p rest ih =>
    rcases p with ⟨k, t0⟩
    intro c
    by_cases hk : (k = ArgKind.pos ∨ k = ArgKind.opt)
    · have hkp : isPositionalKind k = true := by
        rcases hk with h | h <;> simp [isPositionalKind, h]
      by_cases hc : c = expected
      · have hloop : findOtherLoop expected c ((k, t0) :: rest) = some t0 := by
          simp [findOtherLoop, hk, hc]
        constructor
        · intro t ht
          rw [hloop] at ht
          injection ht with ht
          subst ht
          refine ⟨0, k, by simp, ?_, ?_⟩
          · rw [hitFrom_zero]
            simp [hkp, hc]
          · intro i hi
            omega
        · intro hnone
          rw [hloop] at hnone
          cases hnone
      · have hloop : findOtherLoop expected c ((k, t0) :: rest) =
            findOtherLoop expected (c + 1) rest := by
          simp [findOtherLoop, hk, hc]
        have hzero : hitFrom expected c ((k, t0) :: rest) 0 = false := by
          rw [hitFrom_zero]
          simp [hkp, hc]
        have hstep : ∀ i, hitFrom expected c ((k, t0) :: rest) (i + 1) =
            hitFrom expected (c + 1) rest i := by
          intro i
          rw [hitFrom_succ]
          simp [hkp]
        constructor
        · intro t ht
          rw [hloop] at ht
          rcases (ih (c + 1)).1 t ht with ⟨j, k', hj, hhit, hbefore⟩
          refine ⟨j + 1, k', ?_, ?_, ?_⟩
          · rw [List.getElem?_cons_succ]
            exact hj
          · rw [hstep]
            exact hhit
          · intro i hi
            cases i with
            | zero => exact hzero
            | succ i' =>
              rw [hstep]
              exact hbefore i' (by omega)
        · intro hnone
          rw [hloop] at hnone
          intro i
          cases i with
          | zero => exact hzero
          | succ i' =>
            rw [hstep]
            exact (ih (c + 1)).2 hnone i'
    · have hkp : isPositionalKind k = false := by
        cases k <;> simp [isPositionalKind] <;> simp_all
      by_cases hs : k = ArgKind.star2
      · have hloop : findOtherLoop expected c ((k, t0) :: rest) =
            findOtherLoop expected c rest := by
          simp [findOtherLoop, hk, hs]
        have hzero : hitFrom expected c ((k, t0) :: rest) 0 = false := by
          rw [hitFrom_zero]
          simp [hs, isPositionalKind]
        have hstep : ∀ i, hitFrom expected c ((k, t0) :: rest) (i + 1) =
            hitFrom expected c rest i := by
          intro i
          rw [hitFrom_succ]
          simp [hkp]
        constructor
        · intro t ht
          rw [hloop] at ht
          rcases (ih c).1 t ht with ⟨j, k', hj, hhit, hbefore⟩
          refine ⟨j + 1, k', ?_, ?_, ?_⟩
          · rw [List.getElem?_cons_succ]
            exact hj
          · rw [hstep]
            exact hhit
          · intro i hi
            cases i with
            | zero => exact hzero
            | succ i' =>
              rw [hstep]
              exact hbefore i' (by omega)
        · intro hnone
          rw [hloop] at hnone
          intro i
          cases i with
          | zero => exact hzero
          | succ i' =>
            rw [hstep]
            exact (ih c).2 hnone i'
      · have hloop : findOtherLoop expected c ((k, t0) :: rest) = some t0 := by
          simp [findOtherLoop, hk, hs]
        constructor
        · intro t ht
          rw [hloop] at ht
          injection ht with ht
          subst ht
          refine ⟨0, k, by simp, ?_, ?_⟩
          · rw [hitFrom_zero]
            simp [hkp, hs]
          · intro i hi
            omega
        · intro hnone
          rw [hloop] at hnone
          cases hnone

/-! ### Remaining small helpers -/

theorem entryIsMissingOrNone_eq_entryKey_fst (m : CmpMap) (k : String) :
    entryIsMissingOrNone m k = (entryKey m k).1 := by
  unfold entryIsMissingOrNone entryKey
  cases h : m.lookup k with
  | none => rfl
  | some v => cases v <;> rfl

theorem prefRank_le_of_not_pyStrLt {r k : String} (hr : r ∈ ORDERING_METHODS)
    (hk : k ∈ ORDERING_METHODS) (h : pyStrLt r k = false) : prefRank r ≤ prefRank k := by
  simp only [ORDERING_METHODS, List.mem_cons, List.not_mem_nil, or_false] at hr hk
  rcases hr with rfl | rfl | rfl | rfl <;> rcases hk with rfl | rfl | rfl | rfl <;>
      revert h <;> decide

theorem scanNames_eq_of_absent (cls : ClassInfo) (ns : List String)
    (h : ∀ name ∈ ns, cls.names.lookup name = none) :
    ∀ acc : CmpMap, ns.foldl (scanName cls) acc = acc := by
  induction ns with
  | nil => intro acc; rfl
  | cons n ns ih =>
    intro acc
    simp only [List.foldl_cons]
    rw [show scanName cls acc n = acc from by simp [scanName, h n (by simp)]]
    exact ih (fun name hm => h name (by simp [hm])) acc

theorem _analyze_class_eq_nil_of_absent (ctx : Ctx)
    (h : ∀ cls ∈ ctx.mro.dropLast, ∀ name ∈ ORDERING_METHODS,
      cls.names.lookup name = none) : _analyze_class ctx = [] := by
  unfold _analyze_class
  suffices h' : ∀ chain : List ClassInfo,
      (∀ cls ∈ chain, ∀ name ∈ ORDERING_METHODS, cls.names.lookup name = none) →
        chain.foldl scanClass [] = [] from h' _ h
  intro chain
  induction chain with
  | nil => intro _; rfl
  | cons c chain ih =>
    intro hc
    simp only [List.foldl_cons]
    rw [show scanClass [] c = [] from
      scanNames_eq_of_absent c ORDERING_METHODS (hc c (by simp)) []]
    exact ih (fun cls hm => hc cls (by simp [hm]))

/-! ### Concrete inputs used by counterexamples and witnesses -/

/-- A plain operand type used by the concrete classes below. -/
def tyOperand : Ty := Ty.instanceT "mod.T"

/-- An instance-method comparison declaration
`def __xx__(self, other: T) -> bool`. -/
def goodCmp : Node :=
  Node.funcItem false
    (some (Ty.callableT [ArgKind.pos, ArgKind.pos] [tyOperand, tyOperand] boolNamedType))

/-- `builtins.object`, the tail of every MRO (declares no ordering method). -/
def objectClass : ClassInfo := ⟨[]⟩

/-- A class declaring an unanalyzable `__lt__` and a well-typed `__le__`. -/
def ctxLtBadLeGood : Ctx :=
  ⟨[3, 6], [⟨[("__lt__", Node.otherNode), ("__le__", goodCmp)]⟩, objectClass]⟩

/-- A class declaring a well-typed `__lt__` and an unanalyzable `__ge__`. -/
def ctxLtGoodGeBad : Ctx :=
  ⟨[3, 6], [⟨[("__lt__", goodCmp), ("__ge__", Node.otherNode)]⟩, objectClass]⟩

/-- A class declaring only a well-typed `__lt__`. -/
def ctxLtOnly : Ctx := ⟨[3, 6], [⟨[("__lt__", goodCmp)]⟩, objectClass]⟩

/-- A class declaring all four operators with well-typed signatures. -/
def ctxAllFour : Ctx :=
  ⟨[3, 6],
    [⟨[("__lt__", goodCmp), ("__le__", goodCmp), ("__gt__", goodCmp), ("__ge__", goodCmp)]⟩,
      objectClass]⟩

/-- A class declaring no ordering operator anywhere in its chain. -/
def ctxNoOps : Ctx := ⟨[3, 6], [⟨[("foo", Node.otherNode)]⟩, objectClass]⟩

/-! ### The claims -/

/-- C9: for every invocation whose python version is below `(3,)`, the
callback emits the "not supported in Python 2" diagnostic and returns
before any chain scan (the result does not depend on the class at all),
inserting no member. -/
theorem C9_compatibility_gate (ctx : Ctx) (b : Bool)
    (h : pyTupleLt ctx.pythonVersion [3] = true) :
    functools_total_ordering_maker_callback ctx b =
      (["\"functools.total_ordering\" is not supported in Python 2"], []) ∧
    ∀ mro' : List ClassInfo,
      functools_total_ordering_maker_callback ⟨ctx.pythonVersion, mro'⟩ b =
        (["\"functools.total_ordering\" is not supported in Python 2"], []) := by
  constructor
  · unfold functools_total_ordering_maker_callback
    rw [h]
    simp
  · intro mro'
    unfold functools_total_ordering_maker_callback
    rw [show (⟨ctx.pythonVersion, mro'⟩ : Ctx).pythonVersion = ctx.pythonVersion from rfl, h]
    simp

/-- Witness for C9 at python version `(2, 7)`. -/
theorem C9_compatibility_gate_witness :
    functools_total_ordering_maker_callback ⟨[2, 7], [⟨[]⟩]⟩ false =
      (["\"functools.total_ordering\" is not supported in Python 2"], []) :=
  (C9_compatibility_gate ⟨[2, 7], [⟨[]⟩]⟩ false (by decide)).1

/-- C10: the `auto_attribs_default` parameter is never read: the two runs
differing only in it produce identical diagnostics and identical insertions. -/
theorem C10_auto_attribs_noninterference (ctx : Ctx) :
    functools_total_ordering_maker_callback ctx false =
      functools_total_ordering_maker_callback ctx true := rfl

/-- C7: for every class (in a supported mode) declaring none of the four
ordering operators anywhere in its ancestor chain, the callback emits exactly
the one "no ordering operation defined" diagnostic and inserts nothing. -/
theorem C7_no_operator_diagnostic (ctx : Ctx) (b : Bool)
    (hgate : pyTupleLt ctx.pythonVersion [3] = false)
    (hnodecl : ∀ cls ∈ ctx.mro.dropLast, ∀ name ∈ ORDERING_METHODS,
      (cls.names.lookup name).isNone = true) :
    functools_total_ordering_maker_callback ctx b =
      (["No ordering operation defined when using \"functools.total_ordering\": < > <= >="],
        []) := by
  have hscan : _analyze_class ctx = [] :=
    _analyze_class_eq_nil_of_absent ctx
      (fun cls hc name hn => Option.isNone_iff_eq_none.mp (hnodecl cls hc name hn))
  rw [callback_gate_false ctx b hgate, hscan]
  rfl

/-- Witness for C7 on a class declaring only an unrelated member. -/
theorem C7_no_operator_diagnostic_witness :
    functools_total_ordering_maker_callback ctxNoOps false =
      (["No ordering operation defined when using \"functools.total_ordering\": < > <= >="],
        []) :=
  C7_no_operator_diagnostic ctxNoOps false (by decide) (by decide)

/-- C6: when a root is selected but its entry is unanalyzable (`None`), the
callback performs no insertion and emits no diagnostic. -/
theorem C6_silent_noop_unanalyzable_root (ctx : Ctx) (b : Bool) (r : String)
    (hgate : pyTupleLt ctx.pythonVersion [3] = false)
    (hroot : selectRoot (_analyze_class ctx) = some r)
    (hnone : (((_analyze_class ctx).lookup r).getD none).isNone = true) :
    functools_total_ordering_maker_callback ctx b = ([], []) := by
  rw [callback_gate_false ctx b hgate]
  have h2 : ((_analyze_class ctx).lookup r).getD none = none :=
    Option.isNone_iff_eq_none.mp hnone
  simp [hroot, h2]

/-- Witness for C6: a class whose only `__lt__` is an unanalyzable
declaration ends in a silent no-op. -/
theorem C6_silent_noop_unanalyzable_root_witness :
    functools_total_ordering_maker_callback ctxLtBadLeGood false = ([], []) :=
  C6_silent_noop_unanalyzable_root ctxLtBadLeGood false "__lt__" (by decide) (by decide)
    (by decide)

/-- C3: shadowing invariant of the chain scan: the map has at most one entry
per operator name (its keys are nodup), the entry for each operator name is
the classification of the declaration found in the closest class of the chain
declaring it (`closestDeclaration`), and names that are not ordering-operator
names (in particular, names never declared) are absent. -/
theorem C3_shadowing_invariant (ctx : Ctx) :
    ((_analyze_class ctx).map Prod.fst).Nodup ∧
    (∀ name ∈ ORDERING_METHODS,
      (_analyze_class ctx).lookup name =
        (closestDeclaration ctx.mro.dropLast name).map analyzeNode) ∧
    (∀ name, name ∉ ORDERING_METHODS → (_analyze_class ctx).lookup name = none) :=
  ⟨_analyze_class_keys_nodup ctx,
    fun name h => _analyze_class_lookup ctx name h,
    fun name h => _analyze_class_lookup_not_mem ctx name h⟩

/-- Witness for C3 on a concrete two-class chain. -/
theorem C3_shadowing_invariant_witness :
    ((_analyze_class ctxLtBadLeGood).map Prod.fst).Nodup ∧
    (_analyze_class ctxLtBadLeGood).lookup "__lt__" =
      (closestDeclaration ctxLtBadLeGood.mro.dropLast "__lt__").map analyzeNode ∧
    (_analyze_class ctxLtBadLeGood).lookup "__eq__" = none :=
  ⟨(C3_shadowing_invariant ctxLtBadLeGood).1,
    (C3_shadowing_invariant ctxLtBadLeGood).2.1 "__lt__" (by decide),
    (C3_shadowing_invariant ctxLtBadLeGood).2.2 "__eq__" (by decide)⟩

/-- C5: the synthesized return type is the boolean type exactly when the
root's declared return type passes the nominal equality test against the
boolean `Instance`, or its proper form is an `UnboundType` whose last
dotted-path component is `bool`; in every other case it is
`AnyType(TypeOfAny.implementation_artifact)` — never boolean. -/
theorem C5_return_type_resolution (root_method : _MethodInfo) :
    (resolveRetType root_method = boolNamedType ↔
      (isBoolNamedType root_method.ret_type = true ∨
        ∃ name, get_proper_type root_method.ret_type = Ty.unboundT name ∧
          lastComponentIsBool name = true)) ∧
    (resolveRetType root_method ≠ boolNamedType →
      resolveRetType root_method = Ty.anyT TypeOfAny.implementation_artifact) := by
  unfold resolveRetType
  by_cases h1 : isBoolNamedType root_method.ret_type = true
  · simp [h1]
  · rw [if_neg h1]
    cases hp : get_proper_type root_method.ret_type with
    | unboundT name =>
      by_cases h2 : lastComponentIsBool name = true
      · simp [h1, h2, boolNamedType]
      · simp [h1, h2, boolNamedType]
    | instanceT f => simp [h1, hp, boolNamedType]
    | anyT s => simp [h1, hp, boolNamedType]
    | callableT ks ts r => simp [h1, hp, boolNamedType]
    | aliasT t => simp [h1, hp, boolNamedType]
    | otherT tag => simp [h1, hp, boolNamedType]

/-- C4: operand-type extraction: with expected position 0 for a static root
and 1 for an instance-method root, `_find_other_type` returns the type of the
first parameter at which the specification predicate `hitAt` fires (a
positional parameter whose running count of positional parameters equals the
expected position, or any parameter of a kind other than positional and
variadic-keyword, taken immediately), and returns
`AnyType(TypeOfAny.implementation_artifact)` when no position fires. -/
theorem C4_operand_type_extraction (method : _MethodInfo) :
    (∃ j k t, ((method.arg_kinds.zip method.arg_types)[j]? = some (k, t)) ∧
      hitAt (if method.is_static then 0 else 1) (method.arg_kinds.zip method.arg_types) j
        = true ∧
      (∀ i, i < j →
        hitAt (if method.is_static then 0 else 1) (method.arg_kinds.zip method.arg_types) i
          = false) ∧
      _find_other_type method = t) ∨
    ((∀ i,
      hitAt (if method.is_static then 0 else 1) (method.arg_kinds.zip method.arg_types) i
        = false) ∧
      _find_other_type method = Ty.anyT TypeOfAny.implementation_artifact) := by
  have hdef : _find_other_type method =
      (match findOtherLoop (if method.is_static then 0 else 1) 0
          (method.arg_kinds.zip method.arg_types) with
        | some other_arg => other_arg
        | none => Ty.anyT TypeOfAny.implementation_artifact) := rfl
  cases hl : findOtherLoop (if method.is_static then 0 else 1) 0
      (method.arg_kinds.zip method.arg_types) with
  | none =>
    right
    refine ⟨?_, ?_⟩
    · intro i
      exact (findOtherLoop_spec (if method.is_static then 0 else 1)
        (method.arg_kinds.zip method.arg_types) 0).2 hl i
    · rw [hdef, hl]
  | some t =>
    left
    rcases (findOtherLoop_spec (if method.is_static then 0 else 1)
        (method.arg_kinds.zip method.arg_types) 0).1 t hl with ⟨j, k', hj, hhit, hbefore⟩
    refine ⟨j, k', t, hj, hhit, fun i hi => hbefore i hi, ?_⟩
    rw [hdef, hl]

/-- C1 as stated is false on the code: in this class the map holds a Known
`__le__` and an unanalyzable `__lt__`, yet the selected root is the
unanalyzable `__lt__` — `max` over `(entry is None, name)` prefers
unanalyzable entries, the opposite of "prefer Known". -/
theorem C1_counterexample :
    ((((_analyze_class ctxLtBadLeGood).lookup "__le__").getD none).isSome = true) ∧
    selectRoot (_analyze_class ctxLtBadLeGood) = some "__lt__" ∧
    ((((_analyze_class ctxLtBadLeGood).lookup "__lt__").getD none).isNone = true) :=
  ⟨by decide, by decide, by decide⟩

/-- C1 (amended): the selected root is a key of the map; it is maximal for
the key `(entry is None, name)`, so whenever the map holds any unanalyzable
entry the root's entry is unanalyzable (unanalyzable entries are preferred
over Known ones), and among entries of equal analyzability the root follows
the fixed preference order lt > le > gt > ge (smallest `prefRank`). -/
theorem C1_root_selection (ctx : Ctx) (r : String)
    (hroot : selectRoot (_analyze_class ctx) = some r) :
    r ∈ (_analyze_class ctx).map Prod.fst ∧
    ((∃ k ∈ (_analyze_class ctx).map Prod.fst,
        entryIsMissingOrNone (_analyze_class ctx) k = true) →
      entryIsMissingOrNone (_analyze_class ctx) r = true) ∧
    (∀ k ∈ (_analyze_class ctx).map Prod.fst,
      entryIsMissingOrNone (_analyze_class ctx) k = entryIsMissingOrNone (_analyze_class ctx) r →
        prefRank r ≤ prefRank k) := by
  have hmemr := selectRoot_mem hroot
  refine ⟨hmemr, ?_, ?_⟩
  · rintro ⟨k, hk, hkn⟩
    have hmax := selectRoot_not_lt hroot k hk
    cases hrn : entryIsMissingOrNone (_analyze_class ctx) r with
    | true => rfl
    | false =>
      exfalso
      rw [entryIsMissingOrNone_eq_entryKey_fst] at hkn hrn
      have hk2 : entryKey (_analyze_class ctx) k = (true, k) := by
        rw [show entryKey (_analyze_class ctx) k =
          ((entryKey (_analyze_class ctx) k).1, k) from rfl, hkn]
      have hr2 : entryKey (_analyze_class ctx) r = (false, r) := by
        rw [show entryKey (_analyze_class ctx) r =
          ((entryKey (_analyze_class ctx) r).1, r) from rfl, hrn]
      rw [hr2, hk2] at hmax
      simp [pyKeyLt] at hmax
  · intro k hk heq
    have hmax := selectRoot_not_lt hroot k hk
    have hrOM : r ∈ ORDERING_METHODS := _analyze_class_keys_sub ctx r hmemr
    have hkOM : k ∈ ORDERING_METHODS := _analyze_class_keys_sub ctx k hk
    have hfst : (entryKey (_analyze_class ctx) k).1 = (entryKey (_analyze_class ctx) r).1 := by
      rw [← entryIsMissingOrNone_eq_entryKey_fst, ← entryIsMissingOrNone_eq_entryKey_fst]
      exact heq
    have hstr : pyStrLt r k = false := by
      have h1 : entryKey (_analyze_class ctx) r =
          ((entryKey (_analyze_class ctx) r).1, r) := rfl
      have h2 : entryKey (_analyze_class ctx) k =
          ((entryKey (_analyze_class ctx) r).1, k) := by
        rw [show entryKey (_analyze_class ctx) k =
          ((entryKey (_analyze_class ctx) k).1, k) from rfl, hfst]
      rw [h1, h2] at hmax
      cases hb : (entryKey (_analyze_class ctx) r).1 <;> rw [hb] at hmax <;>
        simpa [pyKeyLt] using hmax
    exact prefRank_le_of_not_pyStrLt hrOM hkOM hstr

/-- Witness for the amended C1 on the counterexample class: the amended
policy correctly predicts the unanalyzable `__lt__` as root. -/
theorem C1_root_selection_witness :
    "__lt__" ∈ (_analyze_class ctxLtBadLeGood).map Prod.fst ∧
    ((∃ k ∈ (_analyze_class ctxLtBadLeGood).map Prod.fst,
        entryIsMissingOrNone (_analyze_class ctxLtBadLeGood) k = true) →
      entryIsMissingOrNone (_analyze_class ctxLtBadLeGood) "__lt__" = true) ∧
    (∀ k ∈ (_analyze_class ctxLtBadLeGood).map Prod.fst,
      entryIsMissingOrNone (_analyze_class ctxLtBadLeGood) k =
          entryIsMissingOrNone (_analyze_class ctxLtBadLeGood) "__lt__" →
        prefRank "__lt__" ≤ prefRank k) :=
  C1_root_selection ctxLtBadLeGood "__lt__" (by decide)

/-- C2 as stated is false on the code: this class declares a well-typed
`__lt__` (a Known entry) together with an unanalyzable `__ge__`, yet the run
synthesizes nothing at all — the unanalyzable entry is selected as root and
the run is a silent no-op, so the Known-slot-present premise does not imply
synthesis of the non-Known slots. -/
theorem C2_counterexample :
    ((((_analyze_class ctxLtGoodGeBad).lookup "__lt__").getD none).isSome = true) ∧
    (((_analyze_class ctxLtGoodGeBad).lookup "__le__").isNone = true) ∧
    functools_total_ordering_maker_callback ctxLtGoodGeBad false = ([], []) :=
  ⟨by decide, by decide, rfl⟩

/-- C2 (amended): when the chain scan finds at least one ordering operator
and every found entry is Known (no unanalyzable entry anywhere), the run
emits no diagnostic and synthesizes exactly the operators absent from the
map, all with the one operand type and the one return type derived from
the selected root, and it never touches an operator that has an entry
(in particular it never overwrites a Known one). -/
theorem C2_synthesis (ctx : Ctx) (b : Bool)
    (hgate : pyTupleLt ctx.pythonVersion [3] = false)
    (hne : (_analyze_class ctx).isEmpty = false)
    (hknown : ∀ p ∈ _analyze_class ctx, (p : String × Option _MethodInfo).2.isSome = true) :
    ∃ r rm, selectRoot (_analyze_class ctx) = some r ∧
      (_analyze_class ctx).lookup r = some (some rm) ∧
      (functools_total_ordering_maker_callback ctx b).1 = [] ∧
      ((functools_total_ordering_maker_callback ctx b).2.map (fun a => a.methodName)) =
        ORDERING_METHODS.filter (fun op => ((_analyze_class ctx).lookup op).isNone) ∧
      (∀ a ∈ (functools_total_ordering_maker_callback ctx b).2,
        a.argType = _find_other_type rm ∧ a.retType = resolveRetType rm ∧
          a.argName = "other" ∧ a.argKind = ArgKind.pos) ∧
      (∀ a ∈ (functools_total_ordering_maker_callback ctx b).2,
        (_analyze_class ctx).lookup a.methodName = none) := by
  have hnil : _analyze_class ctx ≠ [] := by
    intro hh
    rw [hh] at hne
    simp at hne
  obtain ⟨r, hr⟩ := selectRoot_of_ne_nil hnil
  have hmemr := selectRoot_mem hr
  have hsome : ((_analyze_class ctx).lookup r).isSome = true :=
    (lookup_isSome_iff_mem _ r).mpr hmemr
  rcases Option.isSome_iff_exists.mp hsome with ⟨v, hv⟩
  have hvm := mem_of_lookup_eq_some hv
  have hvs : v.isSome = true := hknown (r, v) hvm
  rcases Option.isSome_iff_exists.mp hvs with ⟨rm, hrm⟩
  subst hrm
  have hcond : ∀ op, entryIsMissingOrNone (_analyze_class ctx) op =
      ((_analyze_class ctx).lookup op).isNone := by
    intro op
    unfold entryIsMissingOrNone
    cases hvo : (_analyze_class ctx).lookup op with
    | none => rfl
    | some w =>
      cases w with
      | some mi => rfl
      | none =>
        have := hknown (op, none) (mem_of_lookup_eq_some hvo)
        simp at this
  have hrun : functools_total_ordering_maker_callback ctx b =
      ([], ORDERING_METHODS.filterMap (fun additional_op =>
        if entryIsMissingOrNone (_analyze_class ctx) additional_op then
          some ⟨additional_op, "other", _find_other_type rm, .pos, resolveRetType rm⟩
        else none)) := by
    rw [callback_gate_false ctx b hgate]
    simp [hr, hv]
  refine ⟨r, rm, hr, hv, ?_, ?_, ?_, ?_⟩
  · rw [hrun]
  · rw [hrun]
    dsimp only
    rw [filterMap_mk_names]
    exact List.filter_congr (fun op _ => hcond op)
  · intro a ha
    rw [hrun] at ha
    rcases mem_filterMap_mk _ _ _ _ _ _ a ha with ⟨_, _, hmk⟩
    rw [hmk]
    exact ⟨rfl, rfl, rfl, rfl⟩
  · intro a ha
    rw [hrun] at ha
    rcases mem_filterMap_mk _ _ _ _ _ _ a ha with ⟨_, hp, _⟩
    rw [hcond a.methodName] at hp
    exact Option.isNone_iff_eq_none.mp hp

/-- Witness for the amended C2 on a class declaring only `__lt__`. -/
theorem C2_synthesis_witness :
    ∃ r rm, selectRoot (_analyze_class ctxLtOnly) = some r ∧
      (_analyze_class ctxLtOnly).lookup r = some (some rm) ∧
      (functools_total_ordering_maker_callback ctxLtOnly false).1 = [] ∧
      ((functools_total_ordering_maker_callback ctxLtOnly false).2.map
        (fun a => a.methodName)) =
        ORDERING_METHODS.filter (fun op => ((_analyze_class ctxLtOnly).lookup op).isNone) ∧
      (∀ a ∈ (functools_total_ordering_maker_callback ctxLtOnly false).2,
        a.argType = _find_other_type rm ∧ a.retType = resolveRetType rm ∧
          a.argName = "other" ∧ a.argKind = ArgKind.pos) ∧
      (∀ a ∈ (functools_total_ordering_maker_callback ctxLtOnly false).2,
        (_analyze_class ctxLtOnly).lookup a.methodName = none) :=
  C2_synthesis ctxLtOnly false (by decide) (by decide) (by decide)

theorem lookup_of_entryIsMissingOrNone_false {m : CmpMap} {k : String}
    (h : entryIsMissingOrNone m k = false) : ∃ mi, m.lookup k = some (some mi) := by
  unfold entryIsMissingOrNone at h
  cases hvo : m.lookup k with
  | none => rw [hvo] at h; simp at h
  | some w =>
    cases w with
    | none => rw [hvo] at h; simp at h
    | some mi => exact ⟨mi, rfl⟩

/-- C8: idempotence.  First, on a class whose comparison map already holds
all four operator names, the run performs no insertion and emits no
diagnostic.  Second, after a completing first run (one that selected a Known
root, hence performed the synthesis step), applying its insertions to the
class and running again is a guaranteed no-op: no insertions, no
diagnostics. -/
theorem C8_idempotence (ctx : Ctx) (b b' : Bool) (selfType : Ty)
    (hgate : pyTupleLt ctx.pythonVersion [3] = false) :
    ((∀ name ∈ ORDERING_METHODS, ((_analyze_class ctx).lookup name).isSome = true) →
      functools_total_ordering_maker_callback ctx b = ([], [])) ∧
    ((∃ r rm, selectRoot (_analyze_class ctx) = some r ∧
        (_analyze_class ctx).lookup r = some (some rm)) →
      functools_total_ordering_maker_callback
          (applyAdded ctx (functools_total_ordering_maker_callback ctx b).2 selfType) b' =
        ([], [])) := by
  constructor
  · intro hall
    exact run_noop_of_all_present ctx b hgate hall
  · rintro ⟨r, rm, hr, hrv⟩
    have hmnil : _analyze_class ctx ≠ [] := by
      intro hh
      rw [hh] at hr
      simp [selectRoot] at hr
    have hchain : ctx.mro.dropLast ≠ [] := by
      intro hh
      apply hmnil
      unfold _analyze_class
      rw [hh]
      rfl
    rcases hmro : ctx.mro with _ | ⟨c, rest⟩
    · rw [hmro] at hchain
      simp at hchain
    rcases rest with _ | ⟨r0, rest'⟩
    · rw [hmro] at hchain
      simp at hchain
    have hrun : functools_total_ordering_maker_callback ctx b =
        ([], ORDERING_METHODS.filterMap (fun additional_op =>
          if entryIsMissingOrNone (_analyze_class ctx) additional_op then
            some ⟨additional_op, "other", _find_other_type rm, .pos, resolveRetType rm⟩
          else none)) := by
      rw [callback_gate_false ctx b hgate]
      simp [hr, hrv]
    have haddednames : (functools_total_ordering_maker_callback ctx b).2.map
        (fun a => a.methodName) =
        ORDERING_METHODS.filter
          (fun op => entryIsMissingOrNone (_analyze_class ctx) op) := by
      rw [hrun]
      dsimp only
      exact filterMap_mk_names _ _ _ _ _ _
    have happ : applyAdded ctx (functools_total_ordering_maker_callback ctx b).2 selfType =
        ⟨ctx.pythonVersion,
          ((functools_total_ordering_maker_callback ctx b).2.foldl
            (fun cc a => setMember cc a.methodName (addedNode selfType a)) c) :: r0 :: rest'⟩ := by
      unfold applyAdded
      rw [hmro]
    rw [happ]
    refine run_noop_of_all_present _ b' ?_ ?_
    · exact hgate
    intro name hnm
    rw [_analyze_class_lookup _ name hnm]
    have hdl2 : (⟨ctx.pythonVersion,
        ((functools_total_ordering_maker_callback ctx b).2.foldl
          (fun cc a => setMember cc a.methodName (addedNode selfType a)) c) :: r0 :: rest'⟩
          : Ctx).mro.dropLast =
        ((functools_total_ordering_maker_callback ctx b).2.foldl
          (fun cc a => setMember cc a.methodName (addedNode selfType a)) c) ::
          (r0 :: rest').dropLast := rfl
    rw [hdl2]
    by_cases hmemadd : name ∈ (functools_total_ordering_maker_callback ctx b).2.map
        (fun a => a.methodName)
    · rcases foldl_setMember_lookup_mem selfType
          (functools_total_ordering_maker_callback ctx b).2 c name hmemadd with
        ⟨a, _, _, hlook⟩
      have hclose : closestDeclaration
          (((functools_total_ordering_maker_callback ctx b).2.foldl
            (fun cc a => setMember cc a.methodName (addedNode selfType a)) c) ::
            (r0 :: rest').dropLast) name = some (addedNode selfType a) := by
        unfold closestDeclaration
        simp [List.findSome?_cons, hlook]
      rw [hclose]
      rfl
    · cases hcond : entryIsMissingOrNone (_analyze_class ctx) name with
      | true =>
        exfalso
        apply hmemadd
        rw [haddednames]
        exact List.mem_filter.mpr ⟨hnm, hcond⟩
      | false =>
        rcases lookup_of_entryIsMissingOrNone_false hcond with ⟨mi, hmi⟩
        have hold := _analyze_class_lookup ctx name hnm
        rw [hmi] at hold
        have hdl1 : ctx.mro.dropLast = c :: (r0 :: rest').dropLast := by
          rw [hmro]
          exact rfl
        rw [hdl1] at hold
        have hstep : ∃ node, closestDeclaration (c :: (r0 :: rest').dropLast) name
            = some node ∧ analyzeNode node = some mi := by
          cases hcd : closestDeclaration (c :: (r0 :: rest').dropLast) name with
          | none => rw [hcd] at hold; simp at hold
          | some node =>
            rw [hcd] at hold
            simp only [Option.map_some'] at hold
            exact ⟨node, rfl, (Option.some_inj.mp hold).symm⟩
        rcases hstep with ⟨node, hcd, han⟩
        have hc'name : (((functools_total_ordering_maker_callback ctx b).2.foldl
            (fun cc a => setMember cc a.methodName (addedNode selfType a)) c)).names.lookup name
            = c.names.lookup name :=
          foldl_setMember_lookup_not_mem selfType _ c name hmemadd
        cases hhead : c.names.lookup name with
        | some node0 =>
          have h2 : closestDeclaration (c :: (r0 :: rest').dropLast) name = some node0 := by
            unfold closestDeclaration
            simp [List.findSome?_cons, hhead]
          rw [h2] at hcd
          have hnode : node0 = node := Option.some_inj.mp hcd
          have h1 : closestDeclaration
              (((functools_total_ordering_maker_callback ctx b).2.foldl
                (fun cc a => setMember cc a.methodName (addedNode selfType a)) c) ::
                (r0 :: rest').dropLast) name = some node0 := by
            unfold closestDeclaration
            simp [List.findSome?_cons, hc'name, hhead]
          rw [h1, hnode]
          simp [han]
        | none =>
          have h2 : closestDeclaration (c :: (r0 :: rest').dropLast) name =
              closestDeclaration ((r0 :: rest').dropLast) name := by
            unfold closestDeclaration
            simp [List.findSome?_cons, hhead]
          have h1 : closestDeclaration
              (((functools_total_ordering_maker_callback ctx b).2.foldl
                (fun cc a => setMember cc a.methodName (addedNode selfType a)) c) ::
                (r0 :: rest').dropLast) name =
              closestDeclaration ((r0 :: rest').dropLast) name := by
            unfold closestDeclaration
            simp [List.findSome?_cons, hc'name, hhead]
          rw [h1, ← h2, hcd]
          simp [han]

/-- Witness for C8: a class with all four operators is a no-op, and a class
with only `__lt__` is a no-op on the second run after applying the first
run's insertions. -/
theorem C8_idempotence_witness :
    functools_total_ordering_maker_callback ctxAllFour false = ([], []) ∧
    functools_total_ordering_maker_callback
        (applyAdded ctxLtOnly (functools_total_ordering_maker_callback ctxLtOnly false).2
          tyOperand) false = ([], []) :=
  ⟨(C8_idempotence ctxAllFour false false tyOperand (by decide)).1 (by decide),
    (C8_idempotence ctxLtOnly false false tyOperand (by decide)).2
      ⟨"__lt__", ⟨false, [ArgKind.pos, ArgKind.pos], [tyOperand, tyOperand], boolNamedType⟩,
        by decide, rfl⟩⟩

/-- Witness for C4 on the instance-method signature `(self, other : T) -> bool`:
the extractor finds the operand type at position 1. -/
theorem C4_operand_type_extraction_witness :
    (∃ j k t, ((([ArgKind.pos, ArgKind.pos] :
        List ArgKind).zip [tyOperand, tyOperand])[j]? = some (k, t)) ∧
      hitAt 1 (([ArgKind.pos, ArgKind.pos] : List ArgKind).zip [tyOperand, tyOperand]) j
        = true ∧
      (∀ i, i < j →
        hitAt 1 (([ArgKind.pos, ArgKind.pos] : List ArgKind).zip [tyOperand, tyOperand]) i
          = false) ∧
      _find_other_type ⟨false, [ArgKind.pos, ArgKind.pos], [tyOperand, tyOperand],
        boolNamedType⟩ = t) ∨
    ((∀ i, hitAt 1 (([ArgKind.pos, ArgKind.pos] : List ArgKind).zip [tyOperand, tyOperand]) i
        = false) ∧
      _find_other_type ⟨false, [ArgKind.pos, ArgKind.pos], [tyOperand, tyOperand],
        boolNamedType⟩ = Ty.anyT TypeOfAny.implementation_artifact) :=
  C4_operand_type_extraction
    ⟨false, [ArgKind.pos, ArgKind.pos], [tyOperand, tyOperand], boolNamedType⟩

/-- Witness for C5 on a forward-reference return type `"mod.bool"`. -/
theorem C5_return_type_resolution_witness :
    (resolveRetType ⟨false, [], [], Ty.unboundT "mod.bool"⟩ = boolNamedType ↔
      (isBoolNamedType (Ty.unboundT "mod.bool") = true ∨
        ∃ name, get_proper_type (Ty.unboundT "mod.bool") = Ty.unboundT name ∧
          lastComponentIsBool name = true)) ∧
    (resolveRetType ⟨false, [], [], Ty.unboundT "mod.bool"⟩ ≠ boolNamedType →
      resolveRetType ⟨false, [], [], Ty.unboundT "mod.bool"⟩ =
        Ty.anyT TypeOfAny.implementation_artifact) :=
  C5_return_type_resolution ⟨false, [], [], Ty.unboundT "mod.bool"⟩

/-- Witness for C10 on a concrete class. -/
theorem C10_auto_attribs_noninterference_witness :
    functools_total_ordering_maker_callback ctxLtOnly false =
      functools_total_ordering_maker_callback ctxLtOnly true :=
  C10_auto_attribs_noninterference ctxLtOnly
